import Mathlib

/-!
Verification of the Connect Four rules engine
(`src/features/GameBoard/utils.ts` and `types.ts`).

The TypeScript code is embedded shallowly: the board is a list of rows of
optional players, JavaScript indexing (where an out-of-range access yields
`undefined`) is an `Option`-valued lookup, and the `while` loop of
`countCells` becomes a fueled recursion whose fuel strictly dominates the
length of any on-board run.
-/

namespace ConnectFour

/-- The two players, from types.ts (`Player = 'red' | 'yellow'`). -/
inductive Player where
  | red
  | yellow
deriving DecidableEq

/-- A board cell: empty (`null`) or a player's disc, from types.ts. -/
abbrev Cell := Option Player

/-- The board, a list of rows of cells, from types.ts (`GameBoard = Cell[][]`). -/
abbrev GameBoard := List (List Cell)

/-- Game result, from types.ts. -/
inductive GameResult where
  | win
  | draw
  | «continue»
deriving DecidableEq

/-- Game state, from types.ts. -/
structure GameState where
  result : GameResult
  gameBoard : GameBoard
  currentPlayer : Player
  winningDiscs : Option (List (Int × Int))
deriving DecidableEq

/-- Modelled from the spec: `ROWS = 6` (the constants module is imported by the
sources but is not itself among them; the spec fixes the value). -/
def ROWS : Nat := 6

/-- Modelled from the spec: `COLUMNS = 7`. -/
def COLUMNS : Nat := 7

/-- JavaScript array indexing with a possibly negative index: an out-of-range
access yields `undefined`, modelled as `none`. -/
def idx? (l : List α) (i : Int) : Option α :=
  if 0 ≤ i then l[i.toNat]? else none

/-- The expression `board[r][c]`: `none` is `undefined` (off the structure),
`some none` an empty cell, `some (some p)` a disc of player `p`. -/
def cellAt (board : GameBoard) (r c : Int) : Option Cell :=
  (idx? board r).bind fun rw => idx? rw c

/-- Loop of `countCells` (utils.ts): walk from `(r, c)` in direction
`(rowDir, colDir)` while the cell is on the board (`0 ≤ r < 6`, `0 ≤ c < 7`)
and holds the current player's disc, collecting coordinates.  The fuel bounds
the iteration count; any on-board run in a direction with a unit component
has at most 7 cells, so fuel 8 never runs out in the game's calls. -/
def countCellsAux (board : GameBoard) (p : Player) (rowDir colDir : Int) :
    Nat → Int → Int → List (Int × Int)
  | 0, _, _ => []
  | fuel + 1, r, c =>
    if 0 ≤ r ∧ r < 6 ∧ 0 ≤ c ∧ c < 7 ∧ cellAt board r c = some (some p) then
      (r, c) :: countCellsAux board p rowDir colDir fuel (r + rowDir) (c + colDir)
    else []

/-- `countCells` from utils.ts: the walk starts one step away from `(row, col)`. -/
def countCells (state : GameState) (row col rowDir colDir : Int) : List (Int × Int) :=
  countCellsAux state.gameBoard state.currentPlayer rowDir colDir 8 (row + rowDir) (col + colDir)

/-- `checkDirection` from utils.ts: the placed cell, the forward walk and the
backward walk form the candidate run; it wins when it has at least 4 cells. -/
def checkDirection (state : GameState) (row col rowDir colDir : Int) :
    Option (List (Int × Int)) :=
  let winningDiscs :=
    (row, col) :: (countCells state row col rowDir colDir ++
      countCells state row col (-rowDir) (-colDir))
  if 4 ≤ winningDiscs.length then some winningDiscs else none

/-- `isWinningMove` from utils.ts: the four directions are tried in the fixed
order horizontal, vertical, diagonal down-right, diagonal up-right, and the
first non-null result is returned (JavaScript `||`). -/
def isWinningMove (state : GameState) (row col : Int) : Option (List (Int × Int)) :=
  match checkDirection state row col 0 1 with
  | some l => some l
  | none =>
    match checkDirection state row col 1 0 with
    | some l => some l
    | none =>
      match checkDirection state row col 1 1 with
      | some l => some l
      | none => checkDirection state row col 1 (-1)

/-- `isWinningCell` from utils.ts. -/
def isWinningCell (state : GameState) (row col : Int) : Bool :=
  match state.winningDiscs with
  | none => false
  | some discs => discs.any fun rc => rc.1 == row && rc.2 == col

/-- `isBoardFull` from utils.ts: the top row (row 0) has no empty cell. -/
def isBoardFull (board : GameBoard) : Bool :=
  (board.getD 0 []).all fun cell => cell != none

/-- Loop of `getEmptyRow` (utils.ts), scanning the given row indices in order
and returning the first whose cell in column `col` is empty, else -1. -/
def getEmptyRowAux (board : GameBoard) (col : Int) : List Int → Int
  | [] => -1
  | r :: rs => if cellAt board r col = some none then r else getEmptyRowAux board col rs

/-- `getEmptyRow` from utils.ts: scan rows 5 down to 0. -/
def getEmptyRow (board : GameBoard) (col : Int) : Int :=
  getEmptyRowAux board col [5, 4, 3, 2, 1, 0]

/-- The assignment `nextBoard[row][col] = player` in `placeDisc` (the defensive
row-by-row copy is the identity in a pure model).  Only reached with `r` a row
index returned by `getEmptyRow` and `c` a column index at which that row holds
an empty cell, so both indices are in range. -/
def setCell (board : GameBoard) (r c : Int) (v : Cell) : GameBoard :=
  board.set r.toNat ((board.getD r.toNat []).set c.toNat v)

/-- `placeDisc` from utils.ts. -/
def placeDisc (state : GameState) (col : Int) : GameState :=
  if state.result ≠ GameResult.«continue» then state
  else
    let row := getEmptyRow state.gameBoard col
    if row = -1 then state
    else
      let nextBoard := setCell state.gameBoard row col (some state.currentPlayer)
      match isWinningMove { state with gameBoard := nextBoard } row col with
      | some discs =>
        { result := GameResult.win, gameBoard := nextBoard,
          currentPlayer := state.currentPlayer, winningDiscs := some discs }
      | none =>
        if isBoardFull nextBoard then
          { result := GameResult.draw, gameBoard := nextBoard,
            currentPlayer := state.currentPlayer, winningDiscs := none }
        else
          { result := GameResult.«continue», gameBoard := nextBoard,
            currentPlayer :=
              if state.currentPlayer = Player.red then Player.yellow else Player.red,
            winningDiscs := none }

/-- The initial state, as built by the test suite's `getInitialState` and the
`useGameBoard` hook: empty 6 × 7 board, red to move. -/
def getInitialState : GameState :=
  { result := GameResult.«continue»,
    gameBoard := List.replicate ROWS (List.replicate COLUMNS none),
    currentPlayer := Player.red,
    winningDiscs := none }

/-- States reachable from the initial state by a sequence of `placeDisc` calls. -/
def Reachable (s : GameState) : Prop :=
  ∃ moves : List Int, s = moves.foldl placeDisc getInitialState

/-- Well-formed board per the data model: exactly 6 rows of exactly 7 cells. -/
def WFBoard (board : GameBoard) : Prop :=
  board.length = 6 ∧ ∀ rw ∈ board, rw.length = 7

instance (board : GameBoard) : Decidable (WFBoard board) := by
  unfold WFBoard
  exact instDecidableAnd

/-- Whether the cell `(r, c)` holds a disc. -/
def occupiedB (board : GameBoard) (r c : Int) : Bool :=
  match cellAt board r c with
  | some (some _) => true
  | _ => false

/-- Gravity consistency of one column: below every disc there is a disc
(rows are indexed 0 at the top, so larger row indices are lower). -/
def ColGravity (board : GameBoard) (col : Int) : Prop :=
  ∀ r ∈ ([0, 1, 2, 3, 4, 5] : List Int), ∀ r' ∈ ([0, 1, 2, 3, 4, 5] : List Int),
    r < r' → occupiedB board r col = true → occupiedB board r' col = true

instance (board : GameBoard) (col : Int) : Decidable (ColGravity board col) := by
  unfold ColGravity
  exact inferInstance


/-- Number of discs in a column (rows 0 through 5). -/
def columnDiscCount (board : GameBoard) (col : Int) : Nat :=
  ((List.range 6).filter fun (r : Nat) => occupiedB board (r : Int) col).length

/-- Spec-side: the cell `(r, c)` is on the board and holds player `p`'s disc. -/
def goodCell (board : GameBoard) (p : Player) (r c : Int) : Prop :=
  (0 ≤ r ∧ r < 6 ∧ 0 ≤ c ∧ c < 7) ∧ cellAt board r c = some (some p)

instance (board : GameBoard) (p : Player) (r c : Int) : Decidable (goodCell board p r c) := by
  unfold goodCell
  exact instDecidableAnd

/-- Spec-side: the contiguous run of `p`'s discs through `(row, col)` along the
axis `(dr, dc)` has length at least 4 — equivalently, some window of four
consecutive cells along the axis contains `(row, col)` and consists of `p`'s
discs on the board. -/
def hasFourThrough (board : GameBoard) (p : Player) (row col dr dc : Int) : Prop :=
  ∃ s ∈ ([-3, -2, -1, 0] : List Int), ∀ i ∈ ([0, 1, 2, 3] : List Int),
    goodCell board p (row + (s + i) * dr) (col + (s + i) * dc)

instance (board : GameBoard) (p : Player) (row col dr dc : Int) :
    Decidable (hasFourThrough board p row col dr dc) := by
  unfold hasFourThrough
  exact inferInstance

/-- Spec-side: `(r, c)` belongs to the contiguous run of `p`'s discs through
`(row, col)` along the axis `(dr, dc)`: it lies at some offset `k` along the
axis and every cell between offset 0 and offset `k` holds `p`'s disc. -/
def inSpecRun (board : GameBoard) (p : Player) (row col dr dc r c : Int) : Prop :=
  ∃ k : Int, r = row + k * dr ∧ c = col + k * dc ∧
    ∀ j : Int, min k 0 ≤ j → j ≤ max k 0 →
      goodCell board p (row + j * dr) (col + j * dc)

/-- The four axes in the order the code checks them. -/
def axes : List (Int × Int) := [(0, 1), (1, 0), (1, 1), (1, -1)]

/-- First axis, in checking order, whose run through `(row, col)` has length
at least 4. -/
def firstWinAxisAux (board : GameBoard) (p : Player) (row col : Int) :
    List (Int × Int) → Option (Int × Int)
  | [] => none
  | d :: ds =>
    if hasFourThrough board p row col d.1 d.2 then some d
    else firstWinAxisAux board p row col ds

/-- First winning axis among the four, in the code's checking order. -/
def firstWinAxis (board : GameBoard) (p : Player) (row col : Int) : Option (Int × Int) :=
  firstWinAxisAux board p row col axes

/-- Row where an accepted move in `col` places its disc. -/
def placedRow (s : GameState) (col : Int) : Int :=
  getEmptyRow s.gameBoard col

/-- Board after an accepted move in `col` places the mover's disc. -/
def placedBoard (s : GameState) (col : Int) : GameBoard :=
  setCell s.gameBoard (placedRow s col) col (some s.currentPlayer)

/-- Every one of the first `m` steps of the walk starting at `(r, c)` in
direction `(dr, dc)` lands on a board cell holding `p`'s disc. -/
def chainFrom (board : GameBoard) (p : Player) (dr dc r c : Int) (m : Nat) : Prop :=
  ∀ j : Nat, j < m → goodCell board p (r + j * dr) (c + j * dc)

/-- Abbreviations for cells in the concrete test positions below. -/
def rC : Cell := some Player.red

/-- Yellow cell abbreviation. -/
def yC : Cell := some Player.yellow

/-- A position one move away from the test suite's drawn board: the draw
test's final board with the top-right cell still empty and yellow to move. -/
def nearDrawState : GameState :=
  { result := GameResult.«continue»,
    gameBoard :=
      [[yC, yC, yC, rC, yC, yC, none],
       [rC, rC, rC, yC, rC, rC, rC],
       [yC, yC, yC, rC, yC, yC, yC],
       [rC, rC, rC, yC, rC, rC, rC],
       [yC, yC, yC, rC, yC, yC, yC],
       [rC, rC, rC, yC, rC, rC, rC]],
    currentPlayer := Player.yellow,
    winningDiscs := none }

/-- A position in which red's move in column 0 (landing at row 2) completes a
horizontal and a vertical four-in-a-row simultaneously. -/
def doubleWinState : GameState :=
  { result := GameResult.«continue»,
    gameBoard :=
      [[none, none, none, none, none, none, none],
       [none, none, none, none, none, none, none],
       [none, rC, rC, rC, none, none, none],
       [rC, yC, yC, yC, none, none, none],
       [rC, yC, yC, yC, none, none, none],
       [rC, yC, yC, yC, none, none, none]],
    currentPlayer := Player.red,
    winningDiscs := none }

/-- The position one move before the horizontal-win test completes: red is
about to play column 3. -/
def preWinState : GameState :=
  ([0, 0, 1, 1, 2, 2] : List Int).foldl placeDisc getInitialState

/-! ### Basic lemmas about indexing and the board operations -/

theorem idx?_neg (l : List α) (i : Int) (h : i < 0) : idx? l i = none := by
  unfold idx?
  rw [if_neg (by omega : ¬ (0 ≤ i))]

theorem idx?_nonneg (l : List α) (i : Int) (h : 0 ≤ i) : idx? l i = l[i.toNat]? := by
  unfold idx?
  rw [if_pos h]

theorem cellAt_neg_left (board : GameBoard) (r c : Int) (h : r < 0) :
    cellAt board r c = none := by
  unfold cellAt
  rw [idx?_neg board r h]
  rfl

theorem cellAt_neg_right (board : GameBoard) (r c : Int) (h : c < 0) :
    cellAt board r c = none := by
  unfold cellAt
  cases idx? board r with
  | none => rfl
  | some ln => simp [idx?_neg ln c h]

theorem col_nonneg_of_cellAt (board : GameBoard) (r c : Int) (w : Cell)
    (h : cellAt board r c = some w) : 0 ≤ c := by
  by_contra hc
  rw [cellAt_neg_right board r c (by omega)] at h
  exact Option.noConfusion h

theorem row_nonneg_of_cellAt (board : GameBoard) (r c : Int) (w : Cell)
    (h : cellAt board r c = some w) : 0 ≤ r := by
  by_contra hr
  rw [cellAt_neg_left board r c (by omega)] at h
  exact Option.noConfusion h

theorem cellAt_out_of_cols (board : GameBoard) (r c : Int) (hwf : WFBoard board)
    (hr : 0 ≤ r) (hr6 : r < 6) (hc : 7 ≤ c) : cellAt board r c = none := by
  obtain ⟨hlen, hrows⟩ := hwf
  have hlt : r.toNat < board.length := by omega
  have hrow : board[r.toNat]? = some board[r.toNat] := List.getElem?_eq_getElem hlt
  unfold cellAt
  rw [idx?_nonneg board r hr, hrow]
  have hmem : board[r.toNat] ∈ board := List.getElem_mem hlt
  have h7 : (board[r.toNat]).length = 7 := hrows _ hmem
  show idx? board[r.toNat] c = none
  rw [idx?_nonneg _ c (by omega)]
  exact List.getElem?_eq_none (by omega)

theorem cellAt_of_getElem (board : GameBoard) (r c : Int) (hr : 0 ≤ r) (hc : 0 ≤ c) :
    cellAt board r c = (board[r.toNat]?.getD [])[c.toNat]? := by
  unfold cellAt
  rw [idx?_nonneg board r hr]
  cases board[r.toNat]? with
  | none =>
    simp
  | some ln =>
    simp [idx?_nonneg ln c hc]

/-- The scan of `getEmptyRow`, characterized: when it does not return -1 it
returns a row in range whose cell is empty, and every row strictly below it
(larger index) is not empty. -/
theorem getEmptyRow_spec (board : GameBoard) (col : Int)
    (h : getEmptyRow board col ≠ -1) :
    0 ≤ getEmptyRow board col ∧ getEmptyRow board col < 6 ∧
    cellAt board (getEmptyRow board col) col = some none ∧
    ∀ r : Int, getEmptyRow board col < r → r < 6 → cellAt board r col ≠ some none := by
  by_cases h5 : cellAt board 5 col = some none
  · have e : getEmptyRow board col = 5 := by simp [getEmptyRow, getEmptyRowAux, h5]
    rw [e]
    exact ⟨by norm_num, by norm_num, h5, fun r hr1 hr2 => absurd hr1 (by omega)⟩
  · by_cases h4 : cellAt board 4 col = some none
    · have e : getEmptyRow board col = 4 := by simp [getEmptyRow, getEmptyRowAux, h5, h4]
      rw [e]
      refine ⟨by norm_num, by norm_num, h4, ?_⟩
      intro r hr1 hr2
      interval_cases r
      exact h5
    · by_cases h3 : cellAt board 3 col = some none
      · have e : getEmptyRow board col = 3 := by
          simp [getEmptyRow, getEmptyRowAux, h5, h4, h3]
        rw [e]
        refine ⟨by norm_num, by norm_num, h3, ?_⟩
        intro r hr1 hr2
        interval_cases r
        · exact h4
        · exact h5
      · by_cases h2 : cellAt board 2 col = some none
        · have e : getEmptyRow board col = 2 := by
            simp [getEmptyRow, getEmptyRowAux, h5, h4, h3, h2]
          rw [e]
          refine ⟨by norm_num, by norm_num, h2, ?_⟩
          intro r hr1 hr2
          interval_cases r
          · exact h3
          · exact h4
          · exact h5
        · by_cases h1 : cellAt board 1 col = some none
          · have e : getEmptyRow board col = 1 := by
              simp [getEmptyRow, getEmptyRowAux, h5, h4, h3, h2, h1]
            rw [e]
            refine ⟨by norm_num, by norm_num, h1, ?_⟩
            intro r hr1 hr2
            interval_cases r
            · exact h2
            · exact h3
            · exact h4
            · exact h5
          · by_cases h0 : cellAt board 0 col = some none
            · have e : getEmptyRow board col = 0 := by
                simp [getEmptyRow, getEmptyRowAux, h5, h4, h3, h2, h1, h0]
              rw [e]
              refine ⟨by norm_num, by norm_num, h0, ?_⟩
              intro r hr1 hr2
              interval_cases r
              · exact h1
              · exact h2
              · exact h3
              · exact h4
              · exact h5
            · exfalso
              apply h
              simp [getEmptyRow, getEmptyRowAux, h5, h4, h3, h2, h1, h0]

theorem getEmptyRowAux_all_fail (board : GameBoard) (col : Int) (L : List Int)
    (h : ∀ r ∈ L, cellAt board r col ≠ some none) :
    getEmptyRowAux board col L = -1 := by
  induction L with
  | nil => rfl
  | cons a l ih =>
    unfold getEmptyRowAux
    rw [if_neg (h a (List.mem_cons_self a l))]
    exact ih fun r hr => h r (List.mem_cons_of_mem a hr)

/-! ### Lemmas about `setCell` -/

theorem cellAt_setCell_self (board : GameBoard) (r c : Int) (v : Cell) (w : Cell)
    (h : cellAt board r c = some w) :
    cellAt (setCell board r c v) r c = some v := by
  have hr : 0 ≤ r := row_nonneg_of_cellAt board r c w h
  have hc : 0 ≤ c := col_nonneg_of_cellAt board r c w h
  rw [cellAt_of_getElem board r c hr hc] at h
  cases hrow : board[r.toNat]? with
  | none =>
    rw [hrow] at h
    simp at h
  | some ln =>
    rw [hrow] at h
    simp only [Option.getD_some] at h
    have hcl : c.toNat < ln.length := by
      rcases List.getElem?_eq_some.mp h with ⟨hl, _⟩
      exact hl
    have hget : board.getD r.toNat [] = ln := by
      rw [List.getD_eq_getElem?_getD, hrow]
      rfl
    rw [cellAt_of_getElem _ r c hr hc]
    unfold setCell
    rw [hget, List.getElem?_set_self', hrow]
    simp only [Function.const_apply, Option.map_some, Option.getD_some]
    exact List.getElem?_set_eq_of_lt v hcl

theorem cellAt_setCell_other (board : GameBoard) (r c : Int) (v : Cell) (r' c' : Int)
    (hr : 0 ≤ r) (hc : 0 ≤ c) (hne : ¬(r' = r ∧ c' = c)) :
    cellAt (setCell board r c v) r' c' = cellAt board r' c' := by
  by_cases hr' : r' < 0
  · rw [cellAt_neg_left _ r' c' hr', cellAt_neg_left board r' c' hr']
  · by_cases hc' : c' < 0
    · rw [cellAt_neg_right _ r' c' hc', cellAt_neg_right board r' c' hc']
    · push_neg at hr' hc'
      rw [cellAt_of_getElem _ r' c' hr' hc', cellAt_of_getElem board r' c' hr' hc']
      by_cases hrr : r'.toNat = r.toNat
      · have hreq : r' = r := by omega
        have hcne : c' ≠ c := fun hcc => hne ⟨hreq, hcc⟩
        unfold setCell
        rw [hrr, List.getElem?_set_self']
        cases hrow : board[r.toNat]? with
        | none => rfl
        | some ln =>
          simp only [Function.const_apply, Option.map_some, Option.getD_some]
          have hget : board.getD r.toNat [] = ln := by
            rw [List.getD_eq_getElem?_getD, hrow]
            rfl
          rw [hget]
          refine List.getElem?_set_ne ?_
          intro hcc
          exact hcne (by omega)
      · unfold setCell
        exact congrArg (fun o => (Option.getD o [])[c'.toNat]?)
          (List.getElem?_set_ne fun h => hrr h.symm)

theorem length_setCell (board : GameBoard) (r c : Int) (v : Cell) :
    (setCell board r c v).length = board.length := by
  unfold setCell
  exact List.length_set board r.toNat _

theorem WFBoard_setCell (board : GameBoard) (r c : Int) (v : Cell)
    (h : WFBoard board) : WFBoard (setCell board r c v) := by
  obtain ⟨hlen, hrows⟩ := h
  refine ⟨by rw [length_setCell, hlen], ?_⟩
  intro rw2 hmem
  unfold setCell at hmem
  rcases List.mem_or_eq_of_mem_set hmem with hold | hnew
  · exact hrows rw2 hold
  · subst hnew
    rw [List.length_set]
    cases hb : board[r.toNat]? with
    | none =>
      have hge : board.length ≤ r.toNat := by
        by_contra hlt
        push_neg at hlt
        rw [List.getElem?_eq_getElem hlt] at hb
        exact Option.noConfusion hb
      rw [List.set_eq_of_length_le hge] at hmem
      have h7 := hrows _ hmem
      rw [List.length_set] at h7
      exact h7
    | some ln =>
      rw [List.getD_eq_getElem?_getD, hb]
      exact hrows ln (List.getElem?_mem hb)

/-! ### Claim C2: silent rejection of invalid moves -/

/-- Claim C2: for every game state with a well-formed (6 × 7) board and every
integer column, if the state is terminal, or the column is outside [0, 7), or
the column has no empty cell, then `placeDisc` returns the input state
unchanged; it is a total function, so no error or failure indicator exists. -/
theorem c2_placeDisc_noop (s : GameState) (col : Int) (hwf : WFBoard s.gameBoard)
    (h : s.result ≠ GameResult.«continue» ∨ col < 0 ∨ 7 ≤ col ∨
      ∀ r : Int, 0 ≤ r → r < 6 → cellAt s.gameBoard r col ≠ some none) :
    placeDisc s col = s := by
  by_cases hres : s.result ≠ GameResult.«continue»
  · unfold placeDisc
    rw [if_pos hres]
  · push_neg at hres
    have hrow : getEmptyRow s.gameBoard col = -1 := by
      apply getEmptyRowAux_all_fail
      intro r hrL
      have hr0 : 0 ≤ r ∧ r < 6 := by
        fin_cases hrL <;> norm_num
      rcases h with h | h | h | h
      · exact absurd hres h
      · rw [cellAt_neg_right s.gameBoard r col h]
        exact fun hx => Option.noConfusion hx
      · rw [cellAt_out_of_cols s.gameBoard r col hwf hr0.1 hr0.2 h]
        exact fun hx => Option.noConfusion hx
      · exact h r hr0.1 hr0.2
    simp [placeDisc, hres, hrow]

/-- Witness for C2 at a concrete input: column -1 on the initial state. -/
theorem c2_witness :
    WFBoard getInitialState.gameBoard ∧ placeDisc getInitialState (-1) = getInitialState :=
  ⟨by decide, c2_placeDisc_noop getInitialState (-1) (by decide) (Or.inr (Or.inl (by decide)))⟩

/-! ### Claim C8: the winning-cell query -/

/-- Claim C8: `isWinningCell state row col` is true exactly when
`state.winningDiscs` is non-null and contains the pair `(row, col)`; in
particular it is false whenever `winningDiscs` is null. -/
theorem c8_isWinningCell_iff (s : GameState) (row col : Int) :
    isWinningCell s row col = true ↔ ∃ l, s.winningDiscs = some l ∧ (row, col) ∈ l := by
  unfold isWinningCell
  cases h : s.winningDiscs with
  | none => simp
  | some discs =>
    simp only [List.any_eq_true, Bool.and_eq_true, beq_iff_eq, Option.some.injEq]
    constructor
    · rintro ⟨rc, hmem, h1, h2⟩
      refine ⟨discs, rfl, ?_⟩
      have hrc : rc = (row, col) := Prod.ext_iff.mpr ⟨h1, h2⟩
      rw [← hrc]
      exact hmem
    · rintro ⟨l, hl, hmem⟩
      subst hl
      exact ⟨(row, col), hmem, rfl, rfl⟩

/-! ### Claim C9: the horizontal win sequence -/

/-- Claim C9: from the initial state, the column sequence [0,0,1,1,2,2,3]
produces a win recorded for red whose winning discs are exactly the
coordinates (5,0), (5,1), (5,2), (5,3). -/
theorem c9_horizontal_win :
    (([0, 0, 1, 1, 2, 2, 3] : List Int).foldl placeDisc getInitialState).result
        = GameResult.win ∧
    (([0, 0, 1, 1, 2, 2, 3] : List Int).foldl placeDisc getInitialState).currentPlayer
        = Player.red ∧
    ∃ l, (([0, 0, 1, 1, 2, 2, 3] : List Int).foldl placeDisc getInitialState).winningDiscs
        = some l ∧ l.Perm [((5 : Int), (0 : Int)), (5, 1), (5, 2), (5, 3)] :=
  ⟨by decide, by decide,
    ⟨[((5 : Int), (3 : Int)), (5, 2), (5, 1), (5, 0)], by decide, by decide⟩⟩

/-! ### Claim C7: winningDiscs is non-null exactly in won states -/

theorem placeDisc_terminal (s : GameState) (col : Int)
    (h : s.result ≠ GameResult.«continue») : placeDisc s col = s := by
  unfold placeDisc
  rw [if_pos h]

theorem placeDisc_full (s : GameState) (col : Int)
    (h : getEmptyRow s.gameBoard col = -1) : placeDisc s col = s := by
  by_cases h1 : s.result ≠ GameResult.«continue»
  · exact placeDisc_terminal s col h1
  · simp [placeDisc, h1, h]

/-- The accepted branch of `placeDisc`, written with the placed row and the
updated board abbreviated. -/
theorem placeDisc_accepted_eq (s : GameState) (col : Int)
    (hres : s.result = GameResult.«continue») (hacc : getEmptyRow s.gameBoard col ≠ -1) :
    placeDisc s col =
      match isWinningMove { s with gameBoard := placedBoard s col } (placedRow s col) col with
      | some discs =>
        { result := GameResult.win, gameBoard := placedBoard s col,
          currentPlayer := s.currentPlayer, winningDiscs := some discs }
      | none =>
        if isBoardFull (placedBoard s col) then
          { result := GameResult.draw, gameBoard := placedBoard s col,
            currentPlayer := s.currentPlayer, winningDiscs := none }
        else
          { result := GameResult.«continue», gameBoard := placedBoard s col,
            currentPlayer :=
              if s.currentPlayer = Player.red then Player.yellow else Player.red,
            winningDiscs := none } := by
  unfold placedBoard placedRow
  have h1 : ¬ s.result ≠ GameResult.«continue» := fun hx => hx hres
  simp only [placeDisc, h1, if_false, if_neg hacc, ite_false]

theorem winningDiscs_win_step (s : GameState) (col : Int)
    (h : s.winningDiscs ≠ none ↔ s.result = GameResult.win) :
    (placeDisc s col).winningDiscs ≠ none ↔ (placeDisc s col).result = GameResult.win := by
  by_cases h1 : s.result = GameResult.«continue»
  · by_cases h2 : getEmptyRow s.gameBoard col = -1
    · rw [placeDisc_full s col h2]
      exact h
    · rw [placeDisc_accepted_eq s col h1 h2]
      cases hw : (isWinningMove { s with gameBoard := placedBoard s col } (placedRow s col) col) with
      | some discs => simp
      | none =>
        by_cases h3 : isBoardFull (placedBoard s col)
        · simp [h3]
        · simp [h3]
  · rw [placeDisc_terminal s col h1]
    exact h

theorem invariant_foldl (P : GameState → Prop)
    (hstep : ∀ s col, P s → P (placeDisc s col)) :
    ∀ (moves : List Int) (s : GameState), P s → P (moves.foldl placeDisc s) := by
  intro moves
  induction moves with
  | nil => exact fun s hs => hs
  | cons a l ih => exact fun s hs => ih (placeDisc s a) (hstep s a hs)

/-- Claim C7: in every state reachable from the initial state by `placeDisc`
moves, `winningDiscs` is non-null if and only if the result is a win. -/
theorem c7_winningDiscs_iff_win (s : GameState) (hs : Reachable s) :
    s.winningDiscs ≠ none ↔ s.result = GameResult.win := by
  obtain ⟨moves, rfl⟩ := hs
  exact invariant_foldl (fun t => t.winningDiscs ≠ none ↔ t.result = GameResult.win)
    winningDiscs_win_step moves getInitialState (by decide)

/-- Witness for C7: the initial state is reachable and satisfies the claim. -/
theorem c7_witness :
    Reachable getInitialState ∧
    (getInitialState.winningDiscs ≠ none ↔ getInitialState.result = GameResult.win) :=
  ⟨⟨[], rfl⟩, c7_winningDiscs_iff_win getInitialState ⟨[], rfl⟩⟩

/-! ### Facts about accepted moves -/

theorem mem_row_list (r : Int) : r ∈ ([0, 1, 2, 3, 4, 5] : List Int) ↔ 0 ≤ r ∧ r < 6 := by
  constructor
  · intro h
    fin_cases h <;> norm_num
  · rintro ⟨h1, h2⟩
    interval_cases r <;> simp

theorem accepted_col_facts (s : GameState) (col : Int) (hwf : WFBoard s.gameBoard)
    (hacc : getEmptyRow s.gameBoard col ≠ -1) :
    0 ≤ col ∧ col < 7 := by
  obtain ⟨hr0, hr6, hempty, _⟩ := getEmptyRow_spec s.gameBoard col hacc
  have hc0 : 0 ≤ col := col_nonneg_of_cellAt _ _ _ _ hempty
  refine ⟨hc0, ?_⟩
  by_contra hge
  push_neg at hge
  rw [cellAt_out_of_cols s.gameBoard _ col hwf hr0 hr6 hge] at hempty
  exact Option.noConfusion hempty

theorem cellAt_isSome_of_WF (board : GameBoard) (r c : Int) (hwf : WFBoard board)
    (hr0 : 0 ≤ r) (hr6 : r < 6) (hc0 : 0 ≤ c) (hc7 : c < 7) :
    ∃ w, cellAt board r c = some w := by
  obtain ⟨hlen, hrows⟩ := hwf
  have hlt : r.toNat < board.length := by omega
  rw [cellAt_of_getElem board r c hr0 hc0, List.getElem?_eq_getElem hlt]
  have h7 : (board[r.toNat]).length = 7 := hrows _ (List.getElem_mem hlt)
  have hclt : c.toNat < (board[r.toNat]).length := by omega
  simp only [Option.getD_some]
  exact ⟨_, List.getElem?_eq_getElem hclt⟩

theorem placeDisc_board (s : GameState) (col : Int)
    (hres : s.result = GameResult.«continue») (hacc : getEmptyRow s.gameBoard col ≠ -1) :
    (placeDisc s col).gameBoard = placedBoard s col := by
  rw [placeDisc_accepted_eq s col hres hacc]
  cases isWinningMove { s with gameBoard := placedBoard s col } (placedRow s col) col with
  | some discs => rfl
  | none =>
    by_cases h3 : isBoardFull (placedBoard s col)
    · simp [h3]
    · simp [h3]

/-! ### Claim C3: gravity of the placed disc -/

/-- Claim C3: in a non-terminal state with a well-formed, gravity-consistent
board, an accepted move into a column holding `k` discs lands on row `5 - k`,
which is the highest row index whose cell in that column is empty, and the
placed disc occupies that cell in the resulting state. -/
theorem c3_lands_lowest_empty (s : GameState) (col : Int) (k : Nat)
    (hwf : WFBoard s.gameBoard)
    (hres : s.result = GameResult.«continue»)
    (hacc : getEmptyRow s.gameBoard col ≠ -1)
    (hgrav : ColGravity s.gameBoard col)
    (hk : columnDiscCount s.gameBoard col = k) :
    placedRow s col = 5 - (k : Int) ∧
    cellAt s.gameBoard (5 - (k : Int)) col = some none ∧
    (∀ r : Int, 5 - (k : Int) < r → r < 6 → cellAt s.gameBoard r col ≠ some none) ∧
    cellAt (placeDisc s col).gameBoard (5 - (k : Int)) col = some (some s.currentPlayer) := by
  obtain ⟨hr0, hr6, hempty, habove⟩ := getEmptyRow_spec s.gameBoard col hacc
  obtain ⟨hc0, hc7⟩ := accepted_col_facts s col hwf hacc
  have hchar : ∀ x : Nat, x < 6 →
      occupiedB s.gameBoard (x : Int) col = decide (getEmptyRow s.gameBoard col < (x : Int)) := by
    intro x hx6
    by_cases hcmp : getEmptyRow s.gameBoard col < (x : Int)
    · have hne := habove (x : Int) (by omega) (by omega)
      obtain ⟨w, hw⟩ := cellAt_isSome_of_WF s.gameBoard (x : Int) col hwf
        (by omega) (by omega) hc0 hc7
      cases w with
      | none => exact absurd hw hne
      | some p => simp [occupiedB, hw, hcmp]
    · have hnotocc : occupiedB s.gameBoard (x : Int) col = false := by
        by_cases hxeq : (x : Int) = getEmptyRow s.gameBoard col
        · have hcell : cellAt s.gameBoard (x : Int) col = some none := by
            rw [hxeq]
            exact hempty
          simp [occupiedB, hcell]
        · by_contra hocc
          rw [Bool.not_eq_false] at hocc
          have hrowocc := hgrav (x : Int) (by rw [mem_row_list]; omega)
            (getEmptyRow s.gameBoard col) (by rw [mem_row_list]; omega) (by omega) hocc
          simp [occupiedB, hempty] at hrowocc
      rw [hnotocc]
      simp [hcmp]
  have hcount : (columnDiscCount s.gameBoard col : Int) = 5 - getEmptyRow s.gameBoard col := by
    unfold columnDiscCount
    rw [List.filter_congr fun x hx => hchar x (List.mem_range.mp hx)]
    have hrange : ∀ m : Int, 0 ≤ m → m < 6 →
        ((((List.range 6).filter fun (x : Nat) => decide (m < (x : Int))).length : Nat) : Int)
          = 5 - m := by
      intro m h0 h6
      interval_cases m <;> decide
    exact hrange _ hr0 hr6
  rw [hk] at hcount
  have hrowk : getEmptyRow s.gameBoard col = 5 - (k : Int) := by omega
  refine ⟨?_, ?_, ?_, ?_⟩
  · unfold placedRow
    exact hrowk
  · rw [← hrowk]
    exact hempty
  · intro r h1 h2
    exact habove r (by omega) h2
  · rw [placeDisc_board s col hres hacc]
    unfold placedBoard placedRow
    rw [hrowk] at hempty ⊢
    exact cellAt_setCell_self s.gameBoard _ col (some s.currentPlayer) none hempty

/-- Witness for C3: column 0 of the position after one red move holds one
disc, so yellow's disc lands on row 4. -/
theorem c3_witness :
    columnDiscCount (placeDisc getInitialState 0).gameBoard 0 = 1 ∧
    placedRow (placeDisc getInitialState 0) 0 = 4 ∧
    cellAt (placeDisc (placeDisc getInitialState 0) 0).gameBoard 4 0
      = some (some (placeDisc getInitialState 0).currentPlayer) := by
  have h := c3_lands_lowest_empty (placeDisc getInitialState 0) 0 1
    (by decide) (by decide) (by decide) (by decide) (by decide)
  exact ⟨by decide, by exact_mod_cast h.1, h.2.2.2⟩

/-! ### Claim C4: a plain accepted move flips the turn and adds one disc -/

/-- Claim C4: an accepted move on a non-terminal state that neither wins nor
draws yields result continue, flips the mover, clears winningDiscs, and
changes exactly one cell, from empty to the mover's disc. -/
theorem c4_continue_move (s : GameState) (col : Int)
    (hres : s.result = GameResult.«continue»)
    (hacc : getEmptyRow s.gameBoard col ≠ -1)
    (hw : isWinningMove { s with gameBoard := placedBoard s col } (placedRow s col) col = none)
    (hf : isBoardFull (placedBoard s col) = false) :
    (placeDisc s col).result = GameResult.«continue» ∧
    (placeDisc s col).currentPlayer
      = (if s.currentPlayer = Player.red then Player.yellow else Player.red) ∧
    (placeDisc s col).currentPlayer ≠ s.currentPlayer ∧
    (placeDisc s col).winningDiscs = none ∧
    cellAt s.gameBoard (placedRow s col) col = some none ∧
    cellAt (placeDisc s col).gameBoard (placedRow s col) col = some (some s.currentPlayer) ∧
    (∀ r c : Int, ¬(r = placedRow s col ∧ c = col) →
      cellAt (placeDisc s col).gameBoard r c = cellAt s.gameBoard r c) := by
  obtain ⟨hr0, hr6, hempty, _⟩ := getEmptyRow_spec s.gameBoard col hacc
  have hc0 : 0 ≤ col := col_nonneg_of_cellAt _ _ _ _ hempty
  have hboard : (placeDisc s col).gameBoard = placedBoard s col := placeDisc_board s col hres hacc
  have heq := placeDisc_accepted_eq s col hres hacc
  rw [hw] at heq
  rw [if_neg (by rw [hf]; exact Bool.false_ne_true)] at heq
  refine ⟨by rw [heq], by rw [heq], ?_, by rw [heq], hempty, ?_, ?_⟩
  · rw [heq]
    cases s.currentPlayer <;> simp
  · rw [hboard]
    exact cellAt_setCell_self s.gameBoard _ col (some s.currentPlayer) none hempty
  · intro r c hne
    rw [hboard]
    exact cellAt_setCell_other s.gameBoard _ col (some s.currentPlayer) r c hr0 hc0 hne

/-- Witness for C4: red's opening move in column 0. -/
theorem c4_witness :
    (placeDisc getInitialState 0).result = GameResult.«continue» ∧
    (placeDisc getInitialState 0).currentPlayer ≠ getInitialState.currentPlayer ∧
    cellAt (placeDisc getInitialState 0).gameBoard 5 0 = some (some Player.red) := by
  have h := c4_continue_move getInitialState 0 (by decide) (by decide) (by decide) (by decide)
  refine ⟨h.1, h.2.2.1, ?_⟩
  have h5 : placedRow getInitialState 0 = 5 := by decide
  have := h.2.2.2.2.2.1
  rw [h5] at this
  exact this

/-! ### Claim C5: draw check runs only when the win check fails -/

/-- Claim C5: for an accepted move on a non-terminal state, if the win check
fails and the updated top row is full, the result is a draw with
winningDiscs null, the mover unchanged, and the updated board; and whenever
the win check succeeds the result is win, never draw. -/
theorem c5_draw_after_no_win (s : GameState) (col : Int)
    (hres : s.result = GameResult.«continue»)
    (hacc : getEmptyRow s.gameBoard col ≠ -1) :
    (isWinningMove { s with gameBoard := placedBoard s col } (placedRow s col) col = none →
      isBoardFull (placedBoard s col) = true →
      placeDisc s col = { result := GameResult.draw
                          gameBoard := placedBoard s col
                          currentPlayer := s.currentPlayer
                          winningDiscs := none }) ∧
    (∀ discs,
      isWinningMove { s with gameBoard := placedBoard s col } (placedRow s col) col = some discs →
      (placeDisc s col).result = GameResult.win) := by
  have heq := placeDisc_accepted_eq s col hres hacc
  constructor
  · intro hw hfull
    rw [hw] at heq
    rw [if_pos hfull] at heq
    exact heq
  · intro discs hw
    rw [hw] at heq
    rw [heq]

/-- Witness for C5: yellow completes the drawn board by filling column 6. -/
theorem c5_witness :
    nearDrawState.result = GameResult.«continue» ∧
    isWinningMove { nearDrawState with gameBoard := placedBoard nearDrawState 6 }
      (placedRow nearDrawState 6) 6 = none ∧
    isBoardFull (placedBoard nearDrawState 6) = true ∧
    placeDisc nearDrawState 6 = { result := GameResult.draw
                                  gameBoard := placedBoard nearDrawState 6
                                  currentPlayer := nearDrawState.currentPlayer
                                  winningDiscs := none } := by
  refine ⟨rfl, by decide, by decide, ?_⟩
  exact (c5_draw_after_no_win nearDrawState 6 rfl (by decide)).1 (by decide) (by decide)

/-! ### Claim C10: reachable boards are gravity-consistent -/

theorem occupiedB_initial (r c : Int) : occupiedB getInitialState.gameBoard r c = false := by
  unfold occupiedB
  rcases h : cellAt getInitialState.gameBoard r c with _ | w
  · rfl
  · cases w with
    | none => rfl
    | some p =>
      exfalso
      by_cases hr : 0 ≤ r
      · by_cases hc : 0 ≤ c
        · rw [cellAt_of_getElem _ r c hr hc] at h
          have hboard : getInitialState.gameBoard = List.replicate 6 (List.replicate 7 none) := rfl
          rw [hboard, List.getElem?_replicate] at h
          by_cases h6 : r.toNat < 6
          · rw [if_pos h6] at h
            simp only [Option.getD_some] at h
            rw [List.getElem?_replicate] at h
            by_cases h7 : c.toNat < 7
            · rw [if_pos h7] at h
              exact Option.noConfusion (Option.some.inj h)
            · rw [if_neg h7] at h
              exact Option.noConfusion h
          · rw [if_neg h6] at h
            simp at h
        · rw [cellAt_neg_right _ r c (by omega)] at h
          exact Option.noConfusion h
      · rw [cellAt_neg_left _ r c (by omega)] at h
        exact Option.noConfusion h

theorem inv_step (s : GameState) (col : Int)
    (hwf : WFBoard s.gameBoard) (hgrav : ∀ c : Int, ColGravity s.gameBoard c) :
    WFBoard (placeDisc s col).gameBoard ∧
      ∀ c : Int, ColGravity (placeDisc s col).gameBoard c := by
  by_cases h1 : s.result = GameResult.«continue»
  · by_cases h2 : getEmptyRow s.gameBoard col = -1
    · rw [placeDisc_full s col h2]
      exact ⟨hwf, hgrav⟩
    · rw [placeDisc_board s col h1 h2]
      obtain ⟨hr0, hr6, hempty, habove⟩ := getEmptyRow_spec s.gameBoard col h2
      obtain ⟨hc0, hc7⟩ := accepted_col_facts s col hwf h2
      constructor
      · exact WFBoard_setCell _ _ _ _ hwf
      · intro c'
        intro r hrL r' hrL' hlt hocc
        rw [mem_row_list] at hrL hrL'
        unfold placedBoard placedRow at hocc ⊢
        by_cases hceq : c' = col
        · subst hceq
          by_cases hr'eq : r' = getEmptyRow s.gameBoard c'
          · rw [hr'eq]
            unfold occupiedB
            rw [cellAt_setCell_self s.gameBoard _ c' (some s.currentPlayer) none hempty]
          · have htarget : occupiedB s.gameBoard r' c' = true := by
              by_cases hreq : r = getEmptyRow s.gameBoard c'
              · have hne := habove r' (by omega) (by omega)
                obtain ⟨w, hw⟩ := cellAt_isSome_of_WF s.gameBoard r' c' hwf
                  (by omega) (by omega) hc0 hc7
                cases w with
                | none => exact absurd hw hne
                | some p => simp [occupiedB, hw]
              · have hcellr := cellAt_setCell_other s.gameBoard _ c' (some s.currentPlayer)
                  r c' hr0 hc0 (fun hx => hreq hx.1)
                have hsrc : occupiedB s.gameBoard r c' = true := by
                  unfold occupiedB at hocc ⊢
                  rw [hcellr] at hocc
                  exact hocc
                exact hgrav c' r (by rw [mem_row_list]; omega) r'
                  (by rw [mem_row_list]; omega) hlt hsrc
            have hcellr' := cellAt_setCell_other s.gameBoard _ c' (some s.currentPlayer)
              r' c' hr0 hc0 (fun hx => hr'eq hx.1)
            unfold occupiedB at htarget ⊢
            rw [hcellr']
            exact htarget
        · have hcellr := cellAt_setCell_other s.gameBoard _ col (some s.currentPlayer)
            r c' hr0 hc0 (fun hx => hceq hx.2)
          have hcellr' := cellAt_setCell_other s.gameBoard _ col (some s.currentPlayer)
            r' c' hr0 hc0 (fun hx => hceq hx.2)
          unfold occupiedB at hocc ⊢
          rw [hcellr] at hocc
          rw [hcellr']
          exact hgrav c' r (by rw [mem_row_list]; omega) r'
            (by rw [mem_row_list]; omega) hlt hocc
  · rw [placeDisc_terminal s col h1]
    exact ⟨hwf, hgrav⟩

/-- Claim C10: in every reachable state the board is gravity-consistent: if a
cell holds a disc, every cell below it in the same column (larger row index,
up to row 5) also holds a disc. -/
theorem c10_reachable_gravity (s : GameState) (hs : Reachable s)
    (r r' c : Int) (hr0 : 0 ≤ r) (hlt : r < r') (hr6 : r' < 6)
    (hocc : occupiedB s.gameBoard r c = true) :
    occupiedB s.gameBoard r' c = true := by
  have hinv : WFBoard s.gameBoard ∧ ∀ c0 : Int, ColGravity s.gameBoard c0 := by
    obtain ⟨moves, rfl⟩ := hs
    refine invariant_foldl
      (fun t => WFBoard t.gameBoard ∧ ∀ c0 : Int, ColGravity t.gameBoard c0)
      (fun t col h => inv_step t col h.1 h.2) moves getInitialState ⟨by decide, ?_⟩
    intro c0 a haL b hbL hab hocc0
    rw [occupiedB_initial] at hocc0
    exact Bool.noConfusion hocc0
  exact hinv.2 c r (by rw [mem_row_list]; omega) r' (by rw [mem_row_list]; omega) hlt hocc

/-! ### The walk performed by countCells, characterized -/

theorem good_iff (board : GameBoard) (p : Player) (r c : Int) :
    (0 ≤ r ∧ r < 6 ∧ 0 ≤ c ∧ c < 7 ∧ cellAt board r c = some (some p)) ↔
      goodCell board p r c := by
  unfold goodCell
  tauto

theorem mem_neg_window (s : Int) : s ∈ ([-3, -2, -1, 0] : List Int) ↔ -3 ≤ s ∧ s ≤ 0 := by
  constructor
  · intro h
    fin_cases h <;> norm_num
  · rintro ⟨h1, h2⟩
    interval_cases s <;> simp

theorem mem_window4 (i : Int) : i ∈ ([0, 1, 2, 3] : List Int) ↔ 0 ≤ i ∧ i ≤ 3 := by
  constructor
  · intro h
    fin_cases h <;> norm_num
  · rintro ⟨h1, h2⟩
    interval_cases i <;> simp

theorem countCellsAux_length_le (board : GameBoard) (p : Player) (dr dc : Int) :
    ∀ (fuel : Nat) (r c : Int), (countCellsAux board p dr dc fuel r c).length ≤ fuel := by
  intro fuel
  induction fuel with
  | zero =>
    intro r c
    simp [countCellsAux]
  | succ fuel ih =>
    intro r c
    simp only [countCellsAux]
    split
    · simp only [List.length_cons]
      have := ih (r + dr) (c + dc)
      omega
    · simp

theorem chainFrom_succ (board : GameBoard) (p : Player) (dr dc r c : Int) (m : Nat) :
    chainFrom board p dr dc r c (m + 1) ↔
      goodCell board p r c ∧ chainFrom board p dr dc (r + dr) (c + dc) m := by
  constructor
  · intro h
    constructor
    · have h0 := h 0 (by omega)
      simpa using h0
    · intro j hj
      have hh := h (j + 1) (by omega)
      have e1 : r + ((j + 1 : Nat) : Int) * dr = (r + dr) + (j : Int) * dr := by
        push_cast
        ring
      have e2 : c + ((j + 1 : Nat) : Int) * dc = (c + dc) + (j : Int) * dc := by
        push_cast
        ring
      rw [e1, e2] at hh
      exact hh
  · rintro ⟨h0, hc⟩
    intro j hj
    cases j with
    | zero => simpa using h0
    | succ j' =>
      have hh := hc j' (by omega)
      have e1 : (r + dr) + (j' : Int) * dr = r + ((j' + 1 : Nat) : Int) * dr := by
        push_cast
        ring
      have e2 : (c + dc) + (j' : Int) * dc = c + ((j' + 1 : Nat) : Int) * dc := by
        push_cast
        ring
      rw [e1, e2] at hh
      exact hh

theorem countCellsAux_le_iff (board : GameBoard) (p : Player) (dr dc : Int) :
    ∀ (fuel : Nat) (r c : Int) (m : Nat),
      m ≤ (countCellsAux board p dr dc fuel r c).length ↔
        m ≤ fuel ∧ chainFrom board p dr dc r c m := by
  intro fuel
  induction fuel with
  | zero =>
    intro r c m
    simp only [countCellsAux, List.length_nil, Nat.le_zero]
    constructor
    · intro h
      subst h
      exact ⟨rfl, fun j hj => absurd hj (by omega)⟩
    · rintro ⟨h1, _⟩
      exact h1
  | succ fuel ih =>
    intro r c m
    by_cases hg : 0 ≤ r ∧ r < 6 ∧ 0 ≤ c ∧ c < 7 ∧ cellAt board r c = some (some p)
    · simp only [countCellsAux, if_pos hg]
      cases m with
      | zero =>
        constructor
        · intro _
          exact ⟨by omega, fun j hj => absurd hj (by omega)⟩
        · intro _
          exact Nat.zero_le _
      | succ m' =>
        have hstep := ih (r + dr) (c + dc) m'
        have hchain := chainFrom_succ board p dr dc r c m'
        simp only [List.length_cons]
        constructor
        · intro h1
          have hm' : m' ≤ (countCellsAux board p dr dc fuel (r + dr) (c + dc)).length := by
            omega
          obtain ⟨hf, hcf⟩ := hstep.mp hm'
          exact ⟨by omega, hchain.mpr ⟨(good_iff board p r c).mp hg, hcf⟩⟩
        · rintro ⟨hf, hcf⟩
          obtain ⟨hg0, hcf'⟩ := hchain.mp hcf
          have := hstep.mpr ⟨by omega, hcf'⟩
          omega
    · simp only [countCellsAux, if_neg hg, List.length_nil, Nat.le_zero]
      constructor
      · intro h
        subst h
        exact ⟨by omega, fun j hj => absurd hj (by omega)⟩
      · rintro ⟨h1, h2⟩
        by_contra hm
        have h0 : 0 < m := by omega
        have hgd := h2 0 h0
        simp only [Nat.cast_zero, zero_mul, add_zero] at hgd
        exact hg ((good_iff board p r c).mpr hgd)

theorem countCellsAux_mem (board : GameBoard) (p : Player) (dr dc : Int) :
    ∀ (fuel : Nat) (r c : Int) (x : Int × Int),
      x ∈ countCellsAux board p dr dc fuel r c ↔
        ∃ k : Nat, k < (countCellsAux board p dr dc fuel r c).length ∧
          x = (r + (k : Int) * dr, c + (k : Int) * dc) := by
  intro fuel
  induction fuel with
  | zero =>
    intro r c x
    simp [countCellsAux]
  | succ fuel ih =>
    intro r c x
    by_cases hg : 0 ≤ r ∧ r < 6 ∧ 0 ≤ c ∧ c < 7 ∧ cellAt board r c = some (some p)
    · simp only [countCellsAux, if_pos hg, List.mem_cons, List.length_cons]
      rw [ih (r + dr) (c + dc) x]
      constructor
      · rintro (hx | ⟨k, hk, hxk⟩)
        · exact ⟨0, by omega, by simpa using hx⟩
        · refine ⟨k + 1, by omega, ?_⟩
          rw [hxk]
          have e1 : (r + dr) + (k : Int) * dr = r + ((k + 1 : Nat) : Int) * dr := by
            push_cast
            ring
          have e2 : (c + dc) + (k : Int) * dc = c + ((k + 1 : Nat) : Int) * dc := by
            push_cast
            ring
          rw [e1, e2]
      · rintro ⟨k, hk, hxk⟩
        cases k with
        | zero =>
          left
          simpa using hxk
        | succ k' =>
          right
          refine ⟨k', by omega, ?_⟩
          rw [hxk]
          have e1 : r + ((k' + 1 : Nat) : Int) * dr = (r + dr) + (k' : Int) * dr := by
            push_cast
            ring
          have e2 : c + ((k' + 1 : Nat) : Int) * dc = (c + dc) + (k' : Int) * dc := by
            push_cast
            ring
          rw [e1, e2]
    · simp [countCellsAux, if_neg hg]

theorem countCells_length_le (st : GameState) (row col dr dc : Int) :
    (countCells st row col dr dc).length ≤ 8 :=
  countCellsAux_length_le st.gameBoard st.currentPlayer dr dc 8 (row + dr) (col + dc)

/-- The walk in direction `(dr, dc)` reaches at least `m` cells exactly when
the `m` cells at offsets 1 through `m` from the centre all hold the mover's
disc on the board. -/
theorem countCells_le_iff (st : GameState) (row col dr dc : Int) (m : Nat) (hm : m ≤ 8) :
    m ≤ (countCells st row col dr dc).length ↔
      ∀ k : Int, 1 ≤ k → k ≤ (m : Int) →
        goodCell st.gameBoard st.currentPlayer (row + k * dr) (col + k * dc) := by
  unfold countCells
  rw [countCellsAux_le_iff]
  constructor
  · rintro ⟨_, hcf⟩ k h1 h2
    have hk : k.toNat - 1 < m := by omega
    have hh := hcf (k.toNat - 1) hk
    have e0 : ((k.toNat - 1 : Nat) : Int) = k - 1 := by omega
    rw [e0] at hh
    have e1 : (row + dr) + (k - 1) * dr = row + k * dr := by ring
    have e2 : (col + dc) + (k - 1) * dc = col + k * dc := by ring
    rw [e1, e2] at hh
    exact hh
  · intro h
    refine ⟨hm, ?_⟩
    intro j hj
    have hh := h ((j : Int) + 1) (by omega) (by omega)
    have e1 : row + ((j : Int) + 1) * dr = (row + dr) + (j : Int) * dr := by ring
    have e2 : col + ((j : Int) + 1) * dc = (col + dc) + (j : Int) * dc := by ring
    rw [e1, e2] at hh
    exact hh

/-- The cells returned by the walk are exactly those at offsets 1 through the
walk's length. -/
theorem countCells_mem_iff (st : GameState) (row col dr dc : Int) (x : Int × Int) :
    x ∈ countCells st row col dr dc ↔
      ∃ k : Int, 1 ≤ k ∧ k ≤ ((countCells st row col dr dc).length : Int) ∧
        x = (row + k * dr, col + k * dc) := by
  unfold countCells
  rw [countCellsAux_mem]
  constructor
  · rintro ⟨k, hk, hxk⟩
    refine ⟨(k : Int) + 1, by omega, by omega, ?_⟩
    rw [hxk]
    have e1 : (row + dr) + (k : Int) * dr = row + ((k : Int) + 1) * dr := by ring
    have e2 : (col + dc) + (k : Int) * dc = col + ((k : Int) + 1) * dc := by ring
    rw [e1, e2]
  · rintro ⟨k, h1, h2, hxk⟩
    refine ⟨k.toNat - 1, by omega, ?_⟩
    rw [hxk]
    have e0 : ((k.toNat - 1 : Nat) : Int) = k - 1 := by omega
    rw [e0]
    have e1 : (row + dr) + (k - 1) * dr = row + k * dr := by ring
    have e2 : (col + dc) + (k - 1) * dc = col + k * dc := by ring
    rw [e1, e2]

/-- On a 6 × 7 board, no direction with a unit component supports more than 7
consecutive on-board cells. -/
theorem offsets_le_seven (board : GameBoard) (p : Player) (row col dr dc : Int) (m : Nat)
    (hdir : dr = 1 ∨ dr = -1 ∨ dc = 1 ∨ dc = -1)
    (h : ∀ k : Int, 1 ≤ k → k ≤ (m : Int) →
      goodCell board p (row + k * dr) (col + k * dc)) :
    m ≤ 7 := by
  by_contra h8
  push_neg at h8
  have h1 := (h 1 (by omega) (by omega)).1
  have h8' := (h 8 (by omega) (by omega)).1
  rcases hdir with hd | hd | hd | hd <;> subst hd <;> (norm_num at h1 h8'; omega)

/-- Spec-to-code bridge: the run through the centre has length at least 4
exactly when the two walks together cover at least 3 cells. -/
theorem hasFour_iff_three_le (st : GameState) (row col dr dc : Int)
    (hcenter : goodCell st.gameBoard st.currentPlayer row col) :
    hasFourThrough st.gameBoard st.currentPlayer row col dr dc ↔
      3 ≤ (countCells st row col dr dc).length +
        (countCells st row col (-dr) (-dc)).length := by
  constructor
  · rintro ⟨s, hsL, hwin⟩
    rw [mem_neg_window] at hsL
    have hgood : ∀ o : Int, s ≤ o → o ≤ s + 3 →
        goodCell st.gameBoard st.currentPlayer (row + o * dr) (col + o * dc) := by
      intro o h1 h2
      have hh := hwin (o - s) (by rw [mem_window4]; omega)
      have e1 : row + (s + (o - s)) * dr = row + o * dr := by ring
      have e2 : col + (s + (o - s)) * dc = col + o * dc := by ring
      rw [e1, e2] at hh
      exact hh
    have hpchain : ∀ k : Int, 1 ≤ k → k ≤ (((s + 3).toNat : Nat) : Int) →
        goodCell st.gameBoard st.currentPlayer (row + k * dr) (col + k * dc) := by
      intro k h1 h2
      exact hgood k (by omega) (by omega)
    have hnchain : ∀ k : Int, 1 ≤ k → k ≤ (((-s).toNat : Nat) : Int) →
        goodCell st.gameBoard st.currentPlayer (row + k * -dr) (col + k * -dc) := by
      intro k h1 h2
      have hh := hgood (-k) (by omega) (by omega)
      have e1 : row + -k * dr = row + k * -dr := by ring
      have e2 : col + -k * dc = col + k * -dc := by ring
      rw [e1, e2] at hh
      exact hh
    have hple : (s + 3).toNat ≤ (countCells st row col dr dc).length :=
      (countCells_le_iff st row col dr dc (s + 3).toNat (by omega)).mpr hpchain
    have hnle : (-s).toNat ≤ (countCells st row col (-dr) (-dc)).length :=
      (countCells_le_iff st row col (-dr) (-dc) (-s).toNat (by omega)).mpr hnchain
    omega
  · intro hsum
    have hp := (countCells_le_iff st row col dr dc
      (countCells st row col dr dc).length (countCells_length_le st row col dr dc)).mp le_rfl
    have hn0 := (countCells_le_iff st row col (-dr) (-dc)
      (countCells st row col (-dr) (-dc)).length
      (countCells_length_le st row col (-dr) (-dc))).mp le_rfl
    have hn : ∀ k : Int, 1 ≤ k → k ≤ ((countCells st row col (-dr) (-dc)).length : Int) →
        goodCell st.gameBoard st.currentPlayer (row - k * dr) (col - k * dc) := by
      intro k h1 h2
      have hh := hn0 k h1 h2
      have e1 : row + k * -dr = row - k * dr := by ring
      have e2 : col + k * -dc = col - k * dc := by ring
      rw [e1, e2] at hh
      exact hh
    have hoff : ∀ o : Int, -((countCells st row col (-dr) (-dc)).length : Int) ≤ o →
        o ≤ ((countCells st row col dr dc).length : Int) →
        goodCell st.gameBoard st.currentPlayer (row + o * dr) (col + o * dc) := by
      intro o ho1 ho2
      rcases lt_trichotomy o 0 with h | h | h
      · have hh := hn (-o) (by omega) (by omega)
        have e1 : row - -o * dr = row + o * dr := by ring
        have e2 : col - -o * dc = col + o * dc := by ring
        rw [e1, e2] at hh
        exact hh
      · subst h
        simpa using hcenter
      · exact hp o (by omega) ho2
    refine ⟨-(min ((countCells st row col (-dr) (-dc)).length : Int) 3), ?_, ?_⟩
    · rw [mem_neg_window]
      omega
    · intro i hiL
      rw [mem_window4] at hiL
      apply hoff
      · omega
      · omega

theorem neg_dir (dr dc : Int) (hdir : dr = 1 ∨ dr = -1 ∨ dc = 1 ∨ dc = -1) :
    -dr = 1 ∨ -dr = -1 ∨ -dc = 1 ∨ -dc = -1 := by
  rcases hdir with h | h | h | h <;> subst h <;> norm_num

theorem checkDirection_eq_none_iff (st : GameState) (row col dr dc : Int)
    (hcenter : goodCell st.gameBoard st.currentPlayer row col) :
    checkDirection st row col dr dc = none ↔
      ¬ hasFourThrough st.gameBoard st.currentPlayer row col dr dc := by
  rw [hasFour_iff_three_le st row col dr dc hcenter]
  unfold checkDirection
  simp only [List.length_cons, List.length_append]
  split
  · rename_i hcond
    constructor
    · intro hx
      exact Option.noConfusion hx
    · intro hx
      exact (hx (by omega)).elim
  · rename_i hcond
    constructor
    · intro _
      omega
    · intro _
      rfl

theorem checkDirection_eq_some_of (st : GameState) (row col dr dc : Int)
    (hcenter : goodCell st.gameBoard st.currentPlayer row col)
    (h4 : hasFourThrough st.gameBoard st.currentPlayer row col dr dc) :
    checkDirection st row col dr dc =
      some ((row, col) :: (countCells st row col dr dc ++
        countCells st row col (-dr) (-dc))) := by
  have h3 := (hasFour_iff_three_le st row col dr dc hcenter).mp h4
  unfold checkDirection
  rw [if_pos (by simp only [List.length_cons, List.length_append]; omega)]

/-- The candidate run assembled by checkDirection holds exactly the cells of
the spec's contiguous run through the centre. -/
theorem run_mem_iff (st : GameState) (row col dr dc : Int)
    (hdir : dr = 1 ∨ dr = -1 ∨ dc = 1 ∨ dc = -1)
    (hcenter : goodCell st.gameBoard st.currentPlayer row col)
    (x y : Int) :
    (x, y) ∈ (row, col) :: (countCells st row col dr dc ++
        countCells st row col (-dr) (-dc)) ↔
      inSpecRun st.gameBoard st.currentPlayer row col dr dc x y := by
  have hp := (countCells_le_iff st row col dr dc
    (countCells st row col dr dc).length (countCells_length_le st row col dr dc)).mp le_rfl
  have hn0 := (countCells_le_iff st row col (-dr) (-dc)
    (countCells st row col (-dr) (-dc)).length
    (countCells_length_le st row col (-dr) (-dc))).mp le_rfl
  simp only [List.mem_cons, List.mem_append]
  constructor
  · rintro (hx | hx | hx)
    · rw [Prod.mk.injEq] at hx
      refine ⟨0, ?_, ?_, ?_⟩
      · rw [hx.1]
        ring
      · rw [hx.2]
        ring
      · intro j hj1 hj2
        have hj0 : j = 0 := by omega
        subst hj0
        simpa using hcenter
    · rw [countCells_mem_iff] at hx
      obtain ⟨k, hk1, hk2, hxk⟩ := hx
      rw [Prod.mk.injEq] at hxk
      refine ⟨k, hxk.1, hxk.2, ?_⟩
      intro j hj1 hj2
      have hj1' : 0 ≤ j := by omega
      rcases eq_or_lt_of_le hj1' with hj0 | hjpos
      · rw [← hj0]
        simpa using hcenter
      · exact hp j (by omega) (by omega)
    · rw [countCells_mem_iff] at hx
      obtain ⟨k, hk1, hk2, hxk⟩ := hx
      rw [Prod.mk.injEq] at hxk
      refine ⟨-k, ?_, ?_, ?_⟩
      · rw [hxk.1]
        ring
      · rw [hxk.2]
        ring
      · intro j hj1 hj2
        have hj2' : j ≤ 0 := by omega
        rcases eq_or_lt_of_le hj2' with hj0 | hjneg
        · rw [hj0]
          simpa using hcenter
        · have hh := hn0 (-j) (by omega) (by omega)
          have e1 : row + -j * -dr = row + j * dr := by ring
          have e2 : col + -j * -dc = col + j * dc := by ring
          rw [e1, e2] at hh
          exact hh
  · rintro ⟨k, hx, hy, hint⟩
    rcases lt_trichotomy k 0 with hneg | h0 | hpos
    · right
      right
      rw [countCells_mem_iff]
      have hchain : ∀ k' : Int, 1 ≤ k' → k' ≤ (((-k).toNat : Nat) : Int) →
          goodCell st.gameBoard st.currentPlayer (row + k' * -dr) (col + k' * -dc) := by
        intro k' h1 h2
        have hh := hint (-k') (by omega) (by omega)
        have e1 : row + -k' * dr = row + k' * -dr := by ring
        have e2 : col + -k' * dc = col + k' * -dc := by ring
        rw [e1, e2] at hh
        exact hh
      have hb : (-k).toNat ≤ 7 := offsets_le_seven st.gameBoard st.currentPlayer row col
        (-dr) (-dc) (-k).toNat (neg_dir dr dc hdir) hchain
      have hlen : (-k).toNat ≤ (countCells st row col (-dr) (-dc)).length :=
        (countCells_le_iff st row col (-dr) (-dc) (-k).toNat (by omega)).mpr hchain
      refine ⟨-k, by omega, by omega, ?_⟩
      rw [Prod.mk.injEq]
      constructor
      · rw [hx]
        ring
      · rw [hy]
        ring
    · left
      subst h0
      rw [Prod.mk.injEq]
      constructor
      · rw [hx]
        ring
      · rw [hy]
        ring
    · right
      left
      rw [countCells_mem_iff]
      have hchain : ∀ k' : Int, 1 ≤ k' → k' ≤ ((k.toNat : Nat) : Int) →
          goodCell st.gameBoard st.currentPlayer (row + k' * dr) (col + k' * dc) := by
        intro k' h1 h2
        exact hint k' (by omega) (by omega)
      have hb : k.toNat ≤ 7 := offsets_le_seven st.gameBoard st.currentPlayer row col
        dr dc k.toNat hdir hchain
      have hlen : k.toNat ≤ (countCells st row col dr dc).length :=
        (countCells_le_iff st row col dr dc k.toNat (by omega)).mpr hchain
      refine ⟨k, by omega, by omega, ?_⟩
      rw [Prod.mk.injEq]
      exact ⟨hx, hy⟩

theorem firstWinAxisAux_cons (board : GameBoard) (p : Player) (row col : Int)
    (d : Int × Int) (ds : List (Int × Int)) :
    firstWinAxisAux board p row col (d :: ds) =
      if hasFourThrough board p row col d.1 d.2 then some d
      else firstWinAxisAux board p row col ds := rfl

theorem firstWinAxisAux_nil (board : GameBoard) (p : Player) (row col : Int) :
    firstWinAxisAux board p row col [] = none := rfl

theorem firstWinAxis_none_iff (board : GameBoard) (p : Player) (row col : Int) :
    firstWinAxis board p row col = none ↔
      ∀ d ∈ axes, ¬ hasFourThrough board p row col d.1 d.2 := by
  unfold firstWinAxis axes
  rw [firstWinAxisAux_cons]
  by_cases h1 : hasFourThrough board p row col (0, 1).1 (0, 1).2
  · rw [if_pos h1]
    constructor
    · intro hx
      exact Option.noConfusion hx
    · intro hall
      exact absurd h1 (hall (0, 1) (by decide))
  · rw [if_neg h1]
    rw [firstWinAxisAux_cons]
    by_cases h2 : hasFourThrough board p row col (1, 0).1 (1, 0).2
    · rw [if_pos h2]
      constructor
      · intro hx
        exact Option.noConfusion hx
      · intro hall
        exact absurd h2 (hall (1, 0) (by decide))
    · rw [if_neg h2]
      rw [firstWinAxisAux_cons]
      by_cases h3 : hasFourThrough board p row col (1, 1).1 (1, 1).2
      · rw [if_pos h3]
        constructor
        · intro hx
          exact Option.noConfusion hx
        · intro hall
          exact absurd h3 (hall (1, 1) (by decide))
      · rw [if_neg h3]
        rw [firstWinAxisAux_cons]
        by_cases h4 : hasFourThrough board p row col (1, -1).1 (1, -1).2
        · rw [if_pos h4]
          constructor
          · intro hx
            exact Option.noConfusion hx
          · intro hall
            exact absurd h4 (hall (1, -1) (by decide))
        · rw [if_neg h4]
          rw [firstWinAxisAux_nil]
          constructor
          · intro _ d hd
            simp only [List.mem_cons, List.not_mem_nil, or_false] at hd
            rcases hd with rfl | rfl | rfl | rfl
            · exact h1
            · exact h2
            · exact h3
            · exact h4
          · intro _
            rfl

theorem firstWinAxis_some_spec (board : GameBoard) (p : Player) (row col : Int)
    (d : Int × Int) (h : firstWinAxis board p row col = some d) :
    d ∈ axes ∧ hasFourThrough board p row col d.1 d.2 ∧
      (d.1 = 1 ∨ d.1 = -1 ∨ d.2 = 1 ∨ d.2 = -1) := by
  unfold firstWinAxis axes at h
  rw [firstWinAxisAux_cons] at h
  by_cases h1 : hasFourThrough board p row col (0, 1).1 (0, 1).2
  · rw [if_pos h1] at h
    obtain rfl : ((0 : Int), (1 : Int)) = d := Option.some.inj h
    exact ⟨by decide, h1, by decide⟩
  · rw [if_neg h1] at h
    rw [firstWinAxisAux_cons] at h
    by_cases h2 : hasFourThrough board p row col (1, 0).1 (1, 0).2
    · rw [if_pos h2] at h
      obtain rfl : ((1 : Int), (0 : Int)) = d := Option.some.inj h
      exact ⟨by decide, h2, by decide⟩
    · rw [if_neg h2] at h
      rw [firstWinAxisAux_cons] at h
      by_cases h3 : hasFourThrough board p row col (1, 1).1 (1, 1).2
      · rw [if_pos h3] at h
        obtain rfl : ((1 : Int), (1 : Int)) = d := Option.some.inj h
        exact ⟨by decide, h3, by decide⟩
      · rw [if_neg h3] at h
        rw [firstWinAxisAux_cons] at h
        by_cases h4 : hasFourThrough board p row col (1, -1).1 (1, -1).2
        · rw [if_pos h4] at h
          obtain rfl : ((1 : Int), (-1 : Int)) = d := Option.some.inj h
          exact ⟨by decide, h4, by decide⟩
        · rw [if_neg h4] at h
          rw [firstWinAxisAux_nil] at h
          exact Option.noConfusion h

theorem isWinningMove_eq_none_iff (st : GameState) (row col : Int)
    (hcenter : goodCell st.gameBoard st.currentPlayer row col) :
    isWinningMove st row col = none ↔
      firstWinAxis st.gameBoard st.currentPlayer row col = none := by
  rw [firstWinAxis_none_iff]
  unfold isWinningMove
  have hc1 := checkDirection_eq_none_iff st row col 0 1 hcenter
  have hc2 := checkDirection_eq_none_iff st row col 1 0 hcenter
  have hc3 := checkDirection_eq_none_iff st row col 1 1 hcenter
  have hc4 := checkDirection_eq_none_iff st row col 1 (-1) hcenter
  cases hd1 : checkDirection st row col 0 1 with
  | some l =>
    constructor
    · intro hx
      exact Option.noConfusion hx
    · intro hall
      have hnone : checkDirection st row col 0 1 = none :=
        hc1.mpr (hall (0, 1) (by decide))
      rw [hd1] at hnone
      exact Option.noConfusion hnone
  | none =>
    cases hd2 : checkDirection st row col 1 0 with
    | some l =>
      constructor
      · intro hx
        exact Option.noConfusion hx
      · intro hall
        have hnone : checkDirection st row col 1 0 = none :=
          hc2.mpr (hall (1, 0) (by decide))
        rw [hd2] at hnone
        exact Option.noConfusion hnone
    | none =>
      cases hd3 : checkDirection st row col 1 1 with
      | some l =>
        constructor
        · intro hx
          exact Option.noConfusion hx
        · intro hall
          have hnone : checkDirection st row col 1 1 = none :=
            hc3.mpr (hall (1, 1) (by decide))
          rw [hd3] at hnone
          exact Option.noConfusion hnone
      | none =>
        cases hd4 : checkDirection st row col 1 (-1) with
        | some l =>
          constructor
          · intro hx
            exact Option.noConfusion hx
          · intro hall
            have hnone : checkDirection st row col 1 (-1) = none :=
              hc4.mpr (hall (1, -1) (by decide))
            rw [hd4] at hnone
            exact Option.noConfusion hnone
        | none =>
          constructor
          · intro _ d hd
            simp only [axes, List.mem_cons, List.not_mem_nil, or_false] at hd
            rcases hd with rfl | rfl | rfl | rfl
            · exact hc1.mp hd1
            · exact hc2.mp hd2
            · exact hc3.mp hd3
            · exact hc4.mp hd4
          · intro _
            rfl

theorem isWinningMove_eq_of_firstWinAxis (st : GameState) (row col : Int)
    (hcenter : goodCell st.gameBoard st.currentPlayer row col)
    (d : Int × Int)
    (hfirst : firstWinAxis st.gameBoard st.currentPlayer row col = some d) :
    isWinningMove st row col =
      some ((row, col) :: (countCells st row col d.1 d.2 ++
        countCells st row col (-d.1) (-d.2))) := by
  unfold firstWinAxis axes at hfirst
  rw [firstWinAxisAux_cons] at hfirst
  unfold isWinningMove
  by_cases h1 : hasFourThrough st.gameBoard st.currentPlayer row col (0, 1).1 (0, 1).2
  · rw [if_pos h1] at hfirst
    obtain rfl : ((0 : Int), (1 : Int)) = d := Option.some.inj hfirst
    rw [checkDirection_eq_some_of st row col 0 1 hcenter h1]
  · rw [if_neg h1] at hfirst
    rw [firstWinAxisAux_cons] at hfirst
    have he1 : checkDirection st row col 0 1 = none :=
      (checkDirection_eq_none_iff st row col 0 1 hcenter).mpr h1
    rw [he1]
    by_cases h2 : hasFourThrough st.gameBoard st.currentPlayer row col (1, 0).1 (1, 0).2
    · rw [if_pos h2] at hfirst
      obtain rfl : ((1 : Int), (0 : Int)) = d := Option.some.inj hfirst
      rw [checkDirection_eq_some_of st row col 1 0 hcenter h2]
    · rw [if_neg h2] at hfirst
      rw [firstWinAxisAux_cons] at hfirst
      have he2 : checkDirection st row col 1 0 = none :=
        (checkDirection_eq_none_iff st row col 1 0 hcenter).mpr h2
      rw [he2]
      by_cases h3 : hasFourThrough st.gameBoard st.currentPlayer row col (1, 1).1 (1, 1).2
      · rw [if_pos h3] at hfirst
        obtain rfl : ((1 : Int), (1 : Int)) = d := Option.some.inj hfirst
        rw [checkDirection_eq_some_of st row col 1 1 hcenter h3]
      · rw [if_neg h3] at hfirst
        rw [firstWinAxisAux_cons] at hfirst
        have he3 : checkDirection st row col 1 1 = none :=
          (checkDirection_eq_none_iff st row col 1 1 hcenter).mpr h3
        rw [he3]
        by_cases h4 : hasFourThrough st.gameBoard st.currentPlayer row col (1, -1).1 (1, -1).2
        · rw [if_pos h4] at hfirst
          obtain rfl : ((1 : Int), (-1 : Int)) = d := Option.some.inj hfirst
          rw [checkDirection_eq_some_of st row col 1 (-1) hcenter h4]
        · rw [if_neg h4] at hfirst
          rw [firstWinAxisAux_nil] at hfirst
          exact Option.noConfusion hfirst

theorem placed_center_good (s : GameState) (col : Int) (hwf : WFBoard s.gameBoard)
    (hacc : getEmptyRow s.gameBoard col ≠ -1) :
    goodCell (placedBoard s col) s.currentPlayer (placedRow s col) col := by
  obtain ⟨hr0, hr6, hempty, _⟩ := getEmptyRow_spec s.gameBoard col hacc
  obtain ⟨hc0, hc7⟩ := accepted_col_facts s col hwf hacc
  unfold placedBoard placedRow
  refine ⟨⟨hr0, hr6, hc0, hc7⟩, ?_⟩
  exact cellAt_setCell_self s.gameBoard _ col (some s.currentPlayer) none hempty

/-- Shared core of C1 and C6: when the first winning axis is `d`, the move is
a win whose stored winning discs are exactly the spec's contiguous run along
`d` through the placed cell. -/
theorem winningDiscs_of_firstWinAxis (s : GameState) (col : Int) (d : Int × Int)
    (hwf : WFBoard s.gameBoard)
    (hres : s.result = GameResult.«continue»)
    (hacc : getEmptyRow s.gameBoard col ≠ -1)
    (hfirst : firstWinAxis (placedBoard s col) s.currentPlayer (placedRow s col) col = some d) :
    (placeDisc s col).result = GameResult.win ∧
    (placeDisc s col).currentPlayer = s.currentPlayer ∧
    (placeDisc s col).gameBoard = placedBoard s col ∧
    ∃ l, (placeDisc s col).winningDiscs = some l ∧
      ∀ x y : Int, ((x, y) ∈ l ↔
        inSpecRun (placedBoard s col) s.currentPlayer (placedRow s col) col d.1 d.2 x y) := by
  have hcenter : goodCell (placedBoard s col) s.currentPlayer (placedRow s col) col :=
    placed_center_good s col hwf hacc
  obtain ⟨hdax, h4, hdirs⟩ := firstWinAxis_some_spec _ _ _ _ d hfirst
  have hwm := isWinningMove_eq_of_firstWinAxis { s with gameBoard := placedBoard s col }
    (placedRow s col) col hcenter d hfirst
  have heq := placeDisc_accepted_eq s col hres hacc
  rw [hwm] at heq
  refine ⟨by rw [heq], by rw [heq], by rw [heq], ?_⟩
  refine ⟨(placedRow s col, col) ::
      (countCells { s with gameBoard := placedBoard s col } (placedRow s col) col d.1 d.2 ++
        countCells { s with gameBoard := placedBoard s col } (placedRow s col) col
          (-d.1) (-d.2)), by rw [heq], ?_⟩
  intro x y
  exact run_mem_iff { s with gameBoard := placedBoard s col } (placedRow s col) col d.1 d.2
    hdirs hcenter x y

/-! ### Claim C1: win detection matches the spec's run condition -/

/-- Claim C1: for an accepted move on a non-terminal state with a well-formed
board, if some axis's contiguous run through the placed cell has length at
least 4, the move is recorded as a win for the unflipped mover on the updated
board, and winningDiscs is exactly the coordinate set of such a run; if no
axis has such a run, the result is not a win. -/
theorem c1_win_characterization (s : GameState) (col : Int)
    (hwf : WFBoard s.gameBoard)
    (hres : s.result = GameResult.«continue»)
    (hacc : getEmptyRow s.gameBoard col ≠ -1) :
    ((∃ d ∈ axes, hasFourThrough (placedBoard s col) s.currentPlayer (placedRow s col) col
        d.1 d.2) →
      (placeDisc s col).result = GameResult.win ∧
      (placeDisc s col).currentPlayer = s.currentPlayer ∧
      (placeDisc s col).gameBoard = placedBoard s col ∧
      ∃ d ∈ axes,
        hasFourThrough (placedBoard s col) s.currentPlayer (placedRow s col) col d.1 d.2 ∧
        ∃ l, (placeDisc s col).winningDiscs = some l ∧
          ∀ x y : Int, ((x, y) ∈ l ↔
            inSpecRun (placedBoard s col) s.currentPlayer (placedRow s col) col d.1 d.2 x y)) ∧
    ((∀ d ∈ axes, ¬ hasFourThrough (placedBoard s col) s.currentPlayer (placedRow s col) col
        d.1 d.2) →
      (placeDisc s col).result ≠ GameResult.win) := by
  have hcenter : goodCell (placedBoard s col) s.currentPlayer (placedRow s col) col :=
    placed_center_good s col hwf hacc
  constructor
  · intro hex
    cases hfa : firstWinAxis (placedBoard s col) s.currentPlayer (placedRow s col) col with
    | none =>
      exfalso
      obtain ⟨d, hd, h4⟩ := hex
      exact (firstWinAxis_none_iff _ _ _ _).mp hfa d hd h4
    | some d =>
      obtain ⟨hdax, h4, hdirs⟩ := firstWinAxis_some_spec _ _ _ _ d hfa
      obtain ⟨hr, hcur, hb, l, hl, hmem⟩ :=
        winningDiscs_of_firstWinAxis s col d hwf hres hacc hfa
      exact ⟨hr, hcur, hb, d, hdax, h4, l, hl, hmem⟩
  · intro hall
    have hfa : firstWinAxis (placedBoard s col) s.currentPlayer (placedRow s col) col = none :=
      (firstWinAxis_none_iff _ _ _ _).mpr hall
    have hwm : isWinningMove { s with gameBoard := placedBoard s col }
        (placedRow s col) col = none :=
      (isWinningMove_eq_none_iff { s with gameBoard := placedBoard s col }
        (placedRow s col) col hcenter).mpr hfa
    have heq := placeDisc_accepted_eq s col hres hacc
    rw [hwm] at heq
    by_cases hfull : isBoardFull (placedBoard s col) = true
    · rw [if_pos hfull] at heq
      rw [heq]
      intro hx
      exact GameResult.noConfusion hx
    · rw [if_neg hfull] at heq
      rw [heq]
      intro hx
      exact GameResult.noConfusion hx

/-- Witness for C1: red is about to complete a horizontal four by playing
column 3 of the pre-win position. -/
theorem c1_witness :
    WFBoard preWinState.gameBoard ∧
    preWinState.result = GameResult.«continue» ∧
    getEmptyRow preWinState.gameBoard 3 ≠ -1 ∧
    (((∃ d ∈ axes, hasFourThrough (placedBoard preWinState 3) preWinState.currentPlayer
        (placedRow preWinState 3) 3 d.1 d.2) →
      (placeDisc preWinState 3).result = GameResult.win ∧
      (placeDisc preWinState 3).currentPlayer = preWinState.currentPlayer ∧
      (placeDisc preWinState 3).gameBoard = placedBoard preWinState 3 ∧
      ∃ d ∈ axes,
        hasFourThrough (placedBoard preWinState 3) preWinState.currentPlayer
          (placedRow preWinState 3) 3 d.1 d.2 ∧
        ∃ l, (placeDisc preWinState 3).winningDiscs = some l ∧
          ∀ x y : Int, ((x, y) ∈ l ↔
            inSpecRun (placedBoard preWinState 3) preWinState.currentPlayer
              (placedRow preWinState 3) 3 d.1 d.2 x y)) ∧
    ((∀ d ∈ axes, ¬ hasFourThrough (placedBoard preWinState 3) preWinState.currentPlayer
        (placedRow preWinState 3) 3 d.1 d.2) →
      (placeDisc preWinState 3).result ≠ GameResult.win)) :=
  ⟨by decide, by decide, by decide,
    c1_win_characterization preWinState 3 (by decide) (by decide) (by decide)⟩

/-! ### Claim C6: the first winning axis in checking order is reported -/

/-- Claim C6: the axes are tried in the fixed order horizontal, vertical,
diagonal down-right, diagonal up-right; when the first axis in that order
whose run through the placed cell has length at least 4 is `d`, the stored
winning discs are exactly that axis's run — not the union of all winning
runs. -/
theorem c6_first_axis_reported (s : GameState) (col : Int) (d : Int × Int)
    (hwf : WFBoard s.gameBoard)
    (hres : s.result = GameResult.«continue»)
    (hacc : getEmptyRow s.gameBoard col ≠ -1)
    (hfirst : firstWinAxis (placedBoard s col) s.currentPlayer (placedRow s col) col
      = some d) :
    ∃ l, (placeDisc s col).winningDiscs = some l ∧
      ∀ x y : Int, ((x, y) ∈ l ↔
        inSpecRun (placedBoard s col) s.currentPlayer (placedRow s col) col d.1 d.2 x y) :=
  (winningDiscs_of_firstWinAxis s col d hwf hres hacc hfirst).2.2.2

/-- Witness for C6: in the double-win position, red's move in column 0
completes a horizontal and a vertical four simultaneously; the horizontal
axis (0,1) is the first winning axis and is the one reported. -/
theorem c6_witness :
    WFBoard doubleWinState.gameBoard ∧
    doubleWinState.result = GameResult.«continue» ∧
    getEmptyRow doubleWinState.gameBoard 0 ≠ -1 ∧
    firstWinAxis (placedBoard doubleWinState 0) doubleWinState.currentPlayer
      (placedRow doubleWinState 0) 0 = some (0, 1) ∧
    hasFourThrough (placedBoard doubleWinState 0) doubleWinState.currentPlayer
      (placedRow doubleWinState 0) 0 1 0 ∧
    ∃ l, (placeDisc doubleWinState 0).winningDiscs = some l ∧
      ∀ x y : Int, ((x, y) ∈ l ↔
        inSpecRun (placedBoard doubleWinState 0) doubleWinState.currentPlayer
          (placedRow doubleWinState 0) 0 (0, 1).1 (0, 1).2 x y) :=
  ⟨by decide, by decide, by decide, by decide, by decide,
    c6_first_axis_reported doubleWinState 0 (0, 1) (by decide) (by decide) (by decide)
      (by decide)⟩

/-- Witness for C10: after moves in columns 0 and 0, the disc at (4,0) has a
disc below it at (5,0). -/
theorem c10_witness :
    Reachable (([0, 0] : List Int).foldl placeDisc getInitialState) ∧
    occupiedB (([0, 0] : List Int).foldl placeDisc getInitialState).gameBoard 5 0 = true :=
  ⟨⟨[0, 0], rfl⟩, c10_reachable_gravity (([0, 0] : List Int).foldl placeDisc getInitialState)
    ⟨[0, 0], rfl⟩ 4 5 0 (by decide) (by decide) (by decide) (by decide)⟩

end ConnectFour
